import Mathlib

/-!
Verification of the acoustic text codec in `src/lib/audioCodec.ts`.

The codec transmits text by mapping each character to a sine tone
(frequency = BASE_FREQUENCY + charCode * FREQUENCY_STEP) framed by a
start marker (1800 Hz) and an end marker (1600 Hz), and decodes audio
by a per-tick state machine over the dominant spectral frequency.

This file gives a shallow embedding of the codec:
* frequencies are rationals (the source computes with JS numbers; all
  values reached here are exact in both models),
* magnitudes are naturals (`Uint8Array` byte values from
  `getByteFrequencyData`),
* times are integers (`Date.now()` milliseconds),
* the closure state of `analyze` (`isReceiving`, `receivedText`,
  `lastFrequency`, `lastFrequencyTime`) becomes an explicit
  `ReceiverState`, one analysis tick becomes the pure transition
  `analyzeStep`, and the `decoder$.next` emissions become the output
  list of the transition.
-/

/- Batteries marks the arithmetic on `Rat` irreducible, which blocks the
`decide` tactic's evaluation of concrete receiver runs; restore the
default reducibility for this development (kernel checking is unaffected). -/
set_option allowUnsafeReducibility true
attribute [local semireducible] Rat.sub Rat.add Rat.mul Rat.inv

namespace AudioCodec

/-- `const SAMPLE_RATE = 48000`. -/
def SAMPLE_RATE : ℕ := 48000

/-- `const CHAR_DURATION = 0.05` (seconds). -/
def CHAR_DURATION : ℚ := 5 / 100

/-- `const BASE_FREQUENCY = 2000`. -/
def BASE_FREQUENCY : ℚ := 2000

/-- `const FREQUENCY_STEP = 150`. -/
def FREQUENCY_STEP : ℚ := 150

/-- `const START_MARKER_FREQ = 1800`. -/
def START_MARKER_FREQ : ℚ := 1800

/-- `const END_MARKER_FREQ = 1600`. -/
def END_MARKER_FREQ : ℚ := 1600

/-- `const SIGNAL_THRESHOLD = 150`. -/
def SIGNAL_THRESHOLD : ℕ := 150

/-- `const FREQUENCY_TOLERANCE = 40`. -/
def FREQUENCY_TOLERANCE : ℚ := 40

/-- `this.analyser.fftSize = 4096`. -/
def FFT_SIZE : ℕ := 4096

/-- The debounce window `CHAR_DURATION * 1000 * 0.8` in milliseconds.
In the source this is a float expression; IEEE-754 double evaluation of
`0.05 * 1000 * 0.8` yields exactly `40`, as does the rational value here. -/
def DEBOUNCE_MS : ℚ := CHAR_DURATION * 1000 * (4 / 5)

/-- JavaScript `Math.round`: round half toward positive infinity,
`Math.round x = ⌊x + 1/2⌋` for every value exact in our model. -/
def jsRound (q : ℚ) : ℤ := ⌊q + 1 / 2⌋

/-- `charToFrequency`: `BASE_FREQUENCY + (char.charCodeAt(0) * FREQUENCY_STEP)`.
Characters are represented by their character code. -/
def charToFrequency (code : ℕ) : ℚ := BASE_FREQUENCY + (code : ℚ) * FREQUENCY_STEP

/-- The rounded ordinal `Math.round((frequency - BASE_FREQUENCY) / FREQUENCY_STEP)`
computed inside `frequencyToChar`, before `String.fromCharCode` wraps it. -/
def ordinalOf (frequency : ℚ) : ℤ := jsRound ((frequency - BASE_FREQUENCY) / FREQUENCY_STEP)

/-- `frequencyToChar`: `String.fromCharCode(charCode)` applies ToUint16,
i.e. reduces the rounded ordinal modulo 2^16; `char.charCodeAt(0)` then
reads that reduced value back. The result is the character code. -/
def frequencyToChar (frequency : ℚ) : ℕ := ((ordinalOf frequency) % (65536 : ℤ)).toNat

/-- A decoded frame: the `receivedText` string as a list of character codes. -/
abbrev Frame := List ℕ

/-- The mutable closure state of `analyze` inside `startListening`:
`isReceiving`, `receivedText`, `lastFrequency`, `lastFrequencyTime`. -/
structure ReceiverState where
  isReceiving : Bool
  receivedText : List ℕ
  lastFrequency : ℚ
  lastFrequencyTime : ℤ
deriving DecidableEq

/-- Initial closure state set up by `startListening`:
`isReceiving = false`, `receivedText = ''`, `lastFrequency = 0`,
`lastFrequencyTime = Date.now()` (the parameter `t0`). -/
def initialState (t0 : ℤ) : ReceiverState := ⟨false, [], 0, t0⟩

/-- One analysis tick's inputs: the dominant frequency and its byte
magnitude computed from the spectrum, and `Date.now()` at the tick. -/
structure Tick where
  dominantFrequency : ℚ
  magnitude : ℕ
  now : ℤ
deriving DecidableEq

/-- Dominant frequency reported for spectrum bin `i`:
`(maxIndex * ctx.sampleRate) / this.analyser.fftSize`. -/
def binFrequency (i : ℕ) : ℚ := ((i : ℚ) * (SAMPLE_RATE : ℚ)) / (FFT_SIZE : ℚ)

/-- One iteration of the `analyze` callback, as a pure transition: given
the current closure state and the tick's inputs, return the next state
and the list of frames pushed to `decoder$` during the tick (in order). -/
def analyzeStep (s : ReceiverState) (t : Tick) : ReceiverState × List Frame :=
  if SIGNAL_THRESHOLD < t.magnitude then
    if |t.dominantFrequency - START_MARKER_FREQ| < FREQUENCY_TOLERANCE then
      (⟨true, [], s.lastFrequency, s.lastFrequencyTime⟩, [])
    else if |t.dominantFrequency - END_MARKER_FREQ| < FREQUENCY_TOLERANCE then
      (⟨false, s.receivedText, s.lastFrequency, s.lastFrequencyTime⟩,
        if s.receivedText = [] then [] else [s.receivedText])
    else if s.isReceiving = true ∧ FREQUENCY_TOLERANCE < |t.dominantFrequency - s.lastFrequency| then
      if DEBOUNCE_MS < ((t.now - s.lastFrequencyTime : ℤ) : ℚ) then
        if 32 ≤ frequencyToChar t.dominantFrequency ∧ frequencyToChar t.dominantFrequency ≤ 126 then
          (⟨s.isReceiving, s.receivedText ++ [frequencyToChar t.dominantFrequency],
            t.dominantFrequency, t.now⟩, [])
        else (s, [])
      else (s, [])
    else (s, [])
  else (s, [])

/-- Run the `analyze` state machine over a list of ticks in arrival order,
collecting all emitted frames FIFO. -/
def analyzeRun (s : ReceiverState) (ts : List Tick) : ReceiverState × List Frame :=
  match ts with
  | [] => (s, [])
  | t :: rest =>
    let p := analyzeStep s t
    let q := analyzeRun p.1 rest
    (q.1, p.2 ++ q.2)

/-- One tone scheduled by `encodeText` / `generateTone`. -/
structure Tone where
  frequency : ℚ
  duration : ℚ
deriving DecidableEq

/-- The tone sequence played by `encodeText text`: the start marker, one
tone of frequency `charToFrequency c` per character code `c` of the text
in order, then the end marker, each of duration `CHAR_DURATION`. -/
def toneSequence (text : List ℕ) : List Tone :=
  ⟨START_MARKER_FREQ, CHAR_DURATION⟩ ::
    (text.map fun c => ⟨charToFrequency c, CHAR_DURATION⟩) ++
    [⟨END_MARKER_FREQ, CHAR_DURATION⟩]

/-- The dominant-frequency sequence an ideal channel delivers for
`encodeText text`: the frequencies of `toneSequence text`. -/
def toneFrequencies (text : List ℕ) : List ℚ :=
  (toneSequence text).map Tone.frequency

/-- Ideal noise-free readings for a list of frequencies: every tick has
magnitude `m`, the first tick happens at time `t`, and consecutive ticks
are spaced `g` milliseconds apart. -/
def ticksFrom (freqs : List ℚ) (m : ℕ) (t g : ℤ) : List Tick :=
  match freqs with
  | [] => []
  | f :: fs => ⟨f, m, t⟩ :: ticksFrom fs m (t + g) g

/-- No two adjacent entries of the list are equal. -/
def noAdjDup : List ℕ → Bool
  | a :: b :: rest => a ≠ b && noAdjDup (b :: rest)
  | _ => true

/-! ### Basic facts about the numeric helpers -/

lemma DEBOUNCE_MS_eq : DEBOUNCE_MS = 40 := by
  norm_num [DEBOUNCE_MS, CHAR_DURATION]

lemma jsRound_intCast (z : ℤ) : jsRound (z : ℚ) = z := by
  unfold jsRound
  rw [Int.floor_int_add]
  norm_num

lemma jsRound_natCast (n : ℕ) : jsRound (n : ℚ) = n := by
  have h : ((n : ℤ) : ℚ) = (n : ℚ) := by push_cast; ring
  rw [← h, jsRound_intCast]

lemma ordinalOf_charToFrequency (c : ℕ) : ordinalOf (charToFrequency c) = c := by
  unfold ordinalOf charToFrequency
  have h : (BASE_FREQUENCY + (c : ℚ) * FREQUENCY_STEP - BASE_FREQUENCY) / FREQUENCY_STEP
      = (c : ℚ) := by
    simp only [BASE_FREQUENCY, FREQUENCY_STEP]
    field_simp
  rw [h, jsRound_natCast]

/-- Round-trip on ordinals: for printable codes the decoder inverts the
encoder's frequency map exactly. -/
lemma frequencyToChar_charToFrequency (c : ℕ) (hc : c ≤ 126) :
    frequencyToChar (charToFrequency c) = c := by
  unfold frequencyToChar
  rw [ordinalOf_charToFrequency]
  omega

lemma charToFrequency_lower (c : ℕ) (hc : 32 ≤ c) : 6800 ≤ charToFrequency c := by
  have h : (32 : ℚ) ≤ (c : ℚ) := by exact_mod_cast hc
  unfold charToFrequency
  simp only [BASE_FREQUENCY, FREQUENCY_STEP]
  linarith

lemma charToFrequency_upper (c : ℕ) (hc : c ≤ 126) : charToFrequency c ≤ 20900 := by
  have h : (c : ℚ) ≤ (126 : ℚ) := by exact_mod_cast hc
  unfold charToFrequency
  simp only [BASE_FREQUENCY, FREQUENCY_STEP]
  linarith

/-- Every in-band symbol frequency is far from the start marker. -/
lemma symbol_far_from_start (c : ℕ) (hc : 32 ≤ c) :
    FREQUENCY_TOLERANCE ≤ |charToFrequency c - START_MARKER_FREQ| := by
  have h := charToFrequency_lower c hc
  rw [abs_of_nonneg (by simp only [START_MARKER_FREQ] at *; linarith)]
  simp only [START_MARKER_FREQ, FREQUENCY_TOLERANCE] at *
  linarith

/-- Every in-band symbol frequency is far from the end marker. -/
lemma symbol_far_from_end (c : ℕ) (hc : 32 ≤ c) :
    FREQUENCY_TOLERANCE ≤ |charToFrequency c - END_MARKER_FREQ| := by
  have h := charToFrequency_lower c hc
  rw [abs_of_nonneg (by simp only [END_MARKER_FREQ] at *; linarith)]
  simp only [END_MARKER_FREQ, FREQUENCY_TOLERANCE] at *
  linarith

/-- Distinct character codes map to frequencies more than one tolerance apart. -/
lemma charToFrequency_separated (a b : ℕ) (hab : a ≠ b) :
    FREQUENCY_TOLERANCE < |charToFrequency a - charToFrequency b| := by
  have h0 : (a : ℤ) - (b : ℤ) ≠ 0 := by omega
  have h1 : (1 : ℤ) ≤ |(a : ℤ) - (b : ℤ)| := Int.one_le_abs h0
  have h2 : (1 : ℚ) ≤ |(a : ℚ) - (b : ℚ)| := by exact_mod_cast h1
  have h3 : charToFrequency a - charToFrequency b = ((a : ℚ) - (b : ℚ)) * 150 := by
    unfold charToFrequency
    simp only [BASE_FREQUENCY, FREQUENCY_STEP]
    ring
  rw [h3, abs_mul, abs_of_nonneg (by norm_num : (0:ℚ) ≤ 150)]
  simp only [FREQUENCY_TOLERANCE]
  nlinarith

lemma symbol_in_range (c : ℕ) (h1 : 32 ≤ c) (h2 : c ≤ 126) :
    32 ≤ frequencyToChar (charToFrequency c) ∧ frequencyToChar (charToFrequency c) ≤ 126 := by
  rw [frequencyToChar_charToFrequency c h2]
  omega

/-! ### Branch characterizations of `analyzeStep` -/

/-- A tick with magnitude at most the threshold is treated as silence:
no state change, no emission. -/
lemma analyzeStep_silence (s : ReceiverState) (t : Tick)
    (hm : t.magnitude ≤ SIGNAL_THRESHOLD) :
    analyzeStep s t = (s, []) := by
  unfold analyzeStep
  rw [if_neg (not_lt.mpr hm)]

/-- A loud tick near the start marker re-arms the receiver and clears
the buffer, leaving the debounce fields untouched. -/
lemma analyzeStep_start (s : ReceiverState) (t : Tick)
    (hm : SIGNAL_THRESHOLD < t.magnitude)
    (hf : |t.dominantFrequency - START_MARKER_FREQ| < FREQUENCY_TOLERANCE) :
    analyzeStep s t = (⟨true, [], s.lastFrequency, s.lastFrequencyTime⟩, []) := by
  unfold analyzeStep
  rw [if_pos hm, if_pos hf]

/-- A frequency within tolerance of the end marker is automatically far
from the start marker (the markers are 200 Hz apart). -/
lemma end_tick_not_start (f : ℚ) (hf : |f - END_MARKER_FREQ| < FREQUENCY_TOLERANCE) :
    ¬ |f - START_MARKER_FREQ| < FREQUENCY_TOLERANCE := by
  rcases abs_sub_lt_iff.mp hf with ⟨h1, h2⟩
  intro hc
  rcases abs_sub_lt_iff.mp hc with ⟨h3, h4⟩
  simp only [START_MARKER_FREQ, END_MARKER_FREQ, FREQUENCY_TOLERANCE] at *
  linarith

/-- A loud tick near the end marker stops receiving and emits the buffer
exactly when it is non-empty; the buffer itself is left in place. -/
lemma analyzeStep_end (s : ReceiverState) (t : Tick)
    (hm : SIGNAL_THRESHOLD < t.magnitude)
    (hf : |t.dominantFrequency - END_MARKER_FREQ| < FREQUENCY_TOLERANCE) :
    analyzeStep s t = (⟨false, s.receivedText, s.lastFrequency, s.lastFrequencyTime⟩,
      if s.receivedText = [] then [] else [s.receivedText]) := by
  unfold analyzeStep
  rw [if_pos hm, if_neg (end_tick_not_start t.dominantFrequency hf), if_pos hf]

/-- A loud in-band tick that passes the novelty test, the debounce test
and the printable-range test appends one symbol and updates the debounce
fields. -/
lemma analyzeStep_accept (s : ReceiverState) (t : Tick)
    (hm : SIGNAL_THRESHOLD < t.magnitude)
    (h1800 : FREQUENCY_TOLERANCE ≤ |t.dominantFrequency - START_MARKER_FREQ|)
    (h1600 : FREQUENCY_TOLERANCE ≤ |t.dominantFrequency - END_MARKER_FREQ|)
    (hrecv : s.isReceiving = true)
    (hlast : FREQUENCY_TOLERANCE < |t.dominantFrequency - s.lastFrequency|)
    (htime : 40 < t.now - s.lastFrequencyTime)
    (hcode : 32 ≤ frequencyToChar t.dominantFrequency ∧
      frequencyToChar t.dominantFrequency ≤ 126) :
    analyzeStep s t = (⟨true, s.receivedText ++ [frequencyToChar t.dominantFrequency],
      t.dominantFrequency, t.now⟩, []) := by
  unfold analyzeStep
  rw [if_pos hm, if_neg (not_lt.mpr h1800), if_neg (not_lt.mpr h1600),
    if_pos ⟨hrecv, hlast⟩, if_pos, if_pos hcode, hrecv]
  rw [DEBOUNCE_MS_eq]
  exact_mod_cast htime

/-- A loud tick away from both markers that fails the novelty test
(not receiving, or frequency within tolerance of the last accepted one)
changes nothing. -/
lemma analyzeStep_stale (s : ReceiverState) (t : Tick)
    (h1800 : FREQUENCY_TOLERANCE ≤ |t.dominantFrequency - START_MARKER_FREQ|)
    (h1600 : FREQUENCY_TOLERANCE ≤ |t.dominantFrequency - END_MARKER_FREQ|)
    (hcase : ¬(s.isReceiving = true ∧
      FREQUENCY_TOLERANCE < |t.dominantFrequency - s.lastFrequency|)) :
    analyzeStep s t = (s, []) := by
  by_cases hm : SIGNAL_THRESHOLD < t.magnitude
  · unfold analyzeStep
    rw [if_pos hm, if_neg (not_lt.mpr h1800), if_neg (not_lt.mpr h1600), if_neg hcase]
  · exact analyzeStep_silence s t (not_lt.mp hm)

/-- A loud in-band novel tick arriving within the debounce window is
dropped without any state change. -/
lemma analyzeStep_tooSoon (s : ReceiverState) (t : Tick)
    (h1800 : FREQUENCY_TOLERANCE ≤ |t.dominantFrequency - START_MARKER_FREQ|)
    (h1600 : FREQUENCY_TOLERANCE ≤ |t.dominantFrequency - END_MARKER_FREQ|)
    (htime : t.now - s.lastFrequencyTime ≤ 40) :
    analyzeStep s t = (s, []) := by
  by_cases hm : SIGNAL_THRESHOLD < t.magnitude
  · unfold analyzeStep
    rw [if_pos hm, if_neg (not_lt.mpr h1800), if_neg (not_lt.mpr h1600)]
    by_cases hcase : s.isReceiving = true ∧
        FREQUENCY_TOLERANCE < |t.dominantFrequency - s.lastFrequency|
    · rw [if_pos hcase, if_neg]
      rw [DEBOUNCE_MS_eq, not_lt]
      exact_mod_cast htime
    · rw [if_neg hcase]
  · exact analyzeStep_silence s t (not_lt.mp hm)

/-- A loud novel tick whose decoded code falls outside the printable
range is dropped without any state change. -/
lemma analyzeStep_badCode (s : ReceiverState) (t : Tick)
    (h1800 : FREQUENCY_TOLERANCE ≤ |t.dominantFrequency - START_MARKER_FREQ|)
    (h1600 : FREQUENCY_TOLERANCE ≤ |t.dominantFrequency - END_MARKER_FREQ|)
    (hcode : ¬(32 ≤ frequencyToChar t.dominantFrequency ∧
      frequencyToChar t.dominantFrequency ≤ 126)) :
    analyzeStep s t = (s, []) := by
  by_cases hm : SIGNAL_THRESHOLD < t.magnitude
  · unfold analyzeStep
    rw [if_pos hm, if_neg (not_lt.mpr h1800), if_neg (not_lt.mpr h1600)]
    by_cases hcase : s.isReceiving = true ∧
        FREQUENCY_TOLERANCE < |t.dominantFrequency - s.lastFrequency|
    · rw [if_pos hcase]
      by_cases ht : DEBOUNCE_MS < ((t.now - s.lastFrequencyTime : ℤ) : ℚ)
      · rw [if_pos ht, if_neg hcode]
      · rw [if_neg ht]
    · rw [if_neg hcase]
  · exact analyzeStep_silence s t (not_lt.mp hm)

/-! ### Runs of the state machine -/

lemma analyzeRun_nil (s : ReceiverState) : analyzeRun s [] = (s, []) := rfl

lemma analyzeRun_cons (s : ReceiverState) (t : Tick) (ts : List Tick) :
    analyzeRun s (t :: ts)
      = ((analyzeRun (analyzeStep s t).1 ts).1,
         (analyzeStep s t).2 ++ (analyzeRun (analyzeStep s t).1 ts).2) := rfl

lemma analyzeRun_append (s : ReceiverState) (l1 l2 : List Tick) :
    analyzeRun s (l1 ++ l2)
      = ((analyzeRun (analyzeRun s l1).1 l2).1,
         (analyzeRun s l1).2 ++ (analyzeRun (analyzeRun s l1).1 l2).2) := by
  induction l1 generalizing s with
  | nil => simp [analyzeRun_nil]
  | cons t ts ih =>
    simp only [List.cons_append, analyzeRun_cons, ih, List.append_assoc]

lemma ticksFrom_nil (m : ℕ) (t g : ℤ) : ticksFrom [] m t g = [] := rfl

lemma ticksFrom_cons (f : ℚ) (fs : List ℚ) (m : ℕ) (t g : ℤ) :
    ticksFrom (f :: fs) m t g = ⟨f, m, t⟩ :: ticksFrom fs m (t + g) g := rfl

/-- Processing the ticks for a block of in-band, pairwise-adjacent-distinct
symbol frequencies while receiving appends exactly those symbols to the
buffer and emits nothing.  The final debounce fields are existential:
the subsequent end-marker handling does not read them. -/
lemma analyzeRun_symbols (cs : List ℕ) (buf : List ℕ) (prev : ℚ) (tprev : ℤ)
    (m : ℕ) (t g : ℤ)
    (hcs : ∀ c ∈ cs, 32 ≤ c ∧ c ≤ 126)
    (hchain : noAdjDup cs = true)
    (hhead : ∀ c ∈ cs.head?, FREQUENCY_TOLERANCE < |charToFrequency c - prev|)
    (hm : SIGNAL_THRESHOLD < m) (hg : 40 < g) (ht : 40 < t - tprev) :
    ∃ fl tl, analyzeRun ⟨true, buf, prev, tprev⟩ (ticksFrom (cs.map charToFrequency) m t g)
      = (⟨true, buf ++ cs, fl, tl⟩, []) := by
  induction cs generalizing buf prev tprev t with
  | nil =>
    exact ⟨prev, tprev, by simp [ticksFrom_nil, analyzeRun_nil]⟩
  | cons c rest ih =>
    have hc : 32 ≤ c ∧ c ≤ 126 := hcs c (List.mem_cons_self c rest)
    have hstep : analyzeStep ⟨true, buf, prev, tprev⟩ ⟨charToFrequency c, m, t⟩
        = (⟨true, buf ++ [c], charToFrequency c, t⟩, []) := by
      have h := analyzeStep_accept ⟨true, buf, prev, tprev⟩ ⟨charToFrequency c, m, t⟩
        hm (symbol_far_from_start c hc.1) (symbol_far_from_end c hc.1) rfl
        (hhead c rfl) ht (symbol_in_range c hc.1 hc.2)
      rwa [frequencyToChar_charToFrequency c hc.2] at h
    have hrest : ∀ c2 ∈ rest, 32 ≤ c2 ∧ c2 ≤ 126 :=
      fun c2 hc2 => hcs c2 (List.mem_cons_of_mem c hc2)
    have hchain2 : noAdjDup rest = true := by
      cases rest with
      | nil => rfl
      | cons d ds =>
        have := hchain
        unfold noAdjDup at this
        exact (Bool.and_eq_true_iff.mp this).2
    have hhead2 : ∀ c2 ∈ rest.head?,
        FREQUENCY_TOLERANCE < |charToFrequency c2 - charToFrequency c| := by
      intro c2 hc2
      cases rest with
      | nil => simp at hc2
      | cons d ds =>
        have hd : d = c2 := by simpa using hc2
        have hne : c ≠ d := by
          have := hchain
          unfold noAdjDup at this
          have h := (Bool.and_eq_true_iff.mp this).1
          simpa using h
        rw [← hd]
        exact charToFrequency_separated d c fun h => hne h.symm
    obtain ⟨fl, tl, hrun⟩ := ih (buf ++ [c]) (charToFrequency c) t (t + g)
      hrest hchain2 hhead2 (by omega)
    refine ⟨fl, tl, ?_⟩
    rw [List.map_cons, ticksFrom_cons, analyzeRun_cons, hstep]
    simp only [hrun, List.append_assoc, List.singleton_append, List.nil_append]

lemma analyzeRun_snd_cons {s A : ReceiverState} {t : Tick} {out : List Frame}
    (ts : List Tick) (h : analyzeStep s t = (A, out)) :
    (analyzeRun s (t :: ts)).2 = out ++ (analyzeRun A ts).2 := by
  rw [analyzeRun_cons, h]

lemma analyzeRun_snd_append {s s1 : ReceiverState} {o1 : List Frame}
    (l1 l2 : List Tick) (h : analyzeRun s l1 = (s1, o1)) :
    (analyzeRun s (l1 ++ l2)).2 = o1 ++ (analyzeRun s1 l2).2 := by
  rw [analyzeRun_append, h]

lemma ticksFrom_append (xs ys : List ℚ) (m : ℕ) (t g : ℤ) :
    ticksFrom (xs ++ ys) m t g
      = ticksFrom xs m t g ++ ticksFrom ys m (t + xs.length * g) g := by
  induction xs generalizing t with
  | nil => simp [ticksFrom_nil]
  | cons f fs ih =>
    simp only [List.cons_append, ticksFrom_cons, ih, List.length_cons]
    congr 2
    push_cast
    ring_nf

lemma toneFrequencies_eq (text : List ℕ) :
    toneFrequencies text
      = START_MARKER_FREQ :: (text.map charToFrequency ++ [END_MARKER_FREQ]) := by
  unfold toneFrequencies toneSequence
  simp

lemma start_self_close : |START_MARKER_FREQ - START_MARKER_FREQ| < FREQUENCY_TOLERANCE := by
  simp [FREQUENCY_TOLERANCE]

lemma end_self_close : |END_MARKER_FREQ - END_MARKER_FREQ| < FREQUENCY_TOLERANCE := by
  simp [FREQUENCY_TOLERANCE]

/-- Once the last accepted frequency equals the tone's frequency, every
further tick of that same tone is ignored, whatever its magnitude and
time: the novelty test `|f - lastFrequency| > FREQUENCY_TOLERANCE` fails. -/
lemma analyzeRun_sameFreq (s : ReceiverState) (g : ℚ) (rest : List Tick)
    (hfreq : s.lastFrequency = g)
    (h1800 : FREQUENCY_TOLERANCE ≤ |g - START_MARKER_FREQ|)
    (h1600 : FREQUENCY_TOLERANCE ≤ |g - END_MARKER_FREQ|)
    (hrest : ∀ tk ∈ rest, tk.dominantFrequency = g) :
    analyzeRun s rest = (s, []) := by
  induction rest with
  | nil => rfl
  | cons tk tks ih =>
    have htk : tk.dominantFrequency = g := hrest tk (List.mem_cons_self tk tks)
    have hstale : analyzeStep s tk = (s, []) := by
      apply analyzeStep_stale s tk (by rw [htk]; exact h1800) (by rw [htk]; exact h1600)
      intro hcase
      rw [htk, hfreq, sub_self, abs_zero] at hcase
      have h40 : (0 : ℚ) < FREQUENCY_TOLERANCE := by norm_num [FREQUENCY_TOLERANCE]
      exact absurd hcase.2 (not_lt.mpr (le_of_lt h40))
    rw [analyzeRun_cons, hstale]
    simp only [List.nil_append]
    exact ih fun tk2 htk2 => hrest tk2 (List.mem_cons_of_mem tk htk2)

/-! ### Claim theorems -/

/-- Claim C1, counterexample: after the receiver decodes the frame "A"
(code 65), the End-Marker tick has left the buffer non-empty instead of
clearing it, and one further End-Marker tick with no intervening Start
Marker or accepted symbol re-emits the same frame, so the trace
Start, 'A', End, End produces two decoded-Frame events for one frame. -/
theorem end_marker_reemits_frame :
    (analyzeRun (initialState 0)
      [⟨1800, 200, 50⟩, ⟨11750, 200, 100⟩, ⟨1600, 200, 150⟩]).1.receivedText = [65]
    ∧ (analyzeRun (initialState 0)
      [⟨1800, 200, 50⟩, ⟨11750, 200, 100⟩, ⟨1600, 200, 150⟩, ⟨1600, 200, 200⟩]).2
      = [[65], [65]] := by
  decide

/-- Claim C1 as amended: on every tick with magnitude above
SIGNAL_THRESHOLD whose dominant frequency is within FREQUENCY_TOLERANCE
of END_MARKER_FREQ, the receiver transitions to IDLE and emits the buffer
as a completed Frame exactly when the buffer is non-empty, but the buffer
is NOT cleared afterwards; consequently a further End-Marker tick with no
intervening Start Marker or accepted symbol emits the same frame again. -/
theorem end_marker_idle_emit_no_clear (s : ReceiverState) (t : Tick)
    (hm : SIGNAL_THRESHOLD < t.magnitude)
    (hf : |t.dominantFrequency - END_MARKER_FREQ| < FREQUENCY_TOLERANCE) :
    analyzeStep s t = (⟨false, s.receivedText, s.lastFrequency, s.lastFrequencyTime⟩,
      if s.receivedText = [] then [] else [s.receivedText])
    ∧ (s.receivedText ≠ [] → (analyzeRun s [t, t]).2
        = [s.receivedText, s.receivedText]) := by
  have h1 := analyzeStep_end s t hm hf
  refine ⟨h1, fun hne => ?_⟩
  have h2 := analyzeStep_end ⟨false, s.receivedText, s.lastFrequency, s.lastFrequencyTime⟩
    t hm hf
  rw [analyzeRun_cons, h1]
  simp only [analyzeRun_cons, analyzeRun_nil, h2]
  simp [if_neg hne]

/-- Witness for the amended C1 at a concrete reachable state: buffer "A",
End-Marker tick emits it, keeps it in the buffer, and a repeat End-Marker
tick emits it again. -/
theorem end_marker_idle_emit_no_clear_witness :
    analyzeStep ⟨true, [65], 11750, 100⟩ ⟨1600, 200, 150⟩
      = (⟨false, [65], 11750, 100⟩, [[65]])
    ∧ (analyzeRun ⟨true, [65], 11750, 100⟩ [⟨1600, 200, 150⟩, ⟨1600, 200, 150⟩]).2
      = [[65], [65]] := by
  have h := end_marker_idle_emit_no_clear ⟨true, [65], 11750, 100⟩ ⟨1600, 200, 150⟩
    (by decide) (by decide)
  exact ⟨h.1, h.2 (by decide)⟩

/-- Claim C2, counterexample: the round trip fails as stated.  For
T = "AA" (codes [65, 65]) the debounce drops the repeated character and
the decoder emits "A"; for T = "" nothing is emitted at all, rather than
one empty frame. -/
theorem round_trip_fails_on_repeated_chars :
    (analyzeRun (initialState 0) (ticksFrom (toneFrequencies [65, 65]) 200 0 50)).2
      = [[65]]
    ∧ (analyzeRun (initialState 0) (ticksFrom (toneFrequencies [65, 65]) 200 0 50)).2
      ≠ [[65, 65]]
    ∧ (analyzeRun (initialState 0) (ticksFrom (toneFrequencies []) 200 0 50)).2 = [] := by
  decide

/-- Claim C2 as amended: for every NONEMPTY text T whose character codes
lie in [32,126] and in which NO TWO CONSECUTIVE characters are equal,
encoding T into the marker-framed tone sequence and feeding the
corresponding noise-free dominant-frequency readings (magnitude above
SIGNAL_THRESHOLD, consecutive ticks spaced more than 0.8·CHAR_DURATION
= 40 ms apart) to the receiver starting in IDLE yields exactly one
emitted Frame whose text equals T. -/
theorem round_trip_distinct_adjacent (text : List ℕ) (hne : text ≠ [])
    (hcodes : ∀ c ∈ text, 32 ≤ c ∧ c ≤ 126)
    (hchain : noAdjDup text = true)
    (m : ℕ) (g t0 tInit : ℤ)
    (hm : SIGNAL_THRESHOLD < m) (hg : 40 < g) (ht : tInit ≤ t0) :
    (analyzeRun (initialState tInit) (ticksFrom (toneFrequencies text) m t0 g)).2
      = [text] := by
  have hstart : analyzeStep (initialState tInit) ⟨START_MARKER_FREQ, m, t0⟩
      = (⟨true, [], 0, tInit⟩, []) := by
    have h := analyzeStep_start (initialState tInit) ⟨START_MARKER_FREQ, m, t0⟩
      hm start_self_close
    simpa [initialState] using h
  have hhead : ∀ c ∈ text.head?,
      FREQUENCY_TOLERANCE < |charToFrequency c - (0 : ℚ)| := by
    intro c hc
    have hmem : c ∈ text := List.mem_of_mem_head? hc
    have h32 : 32 ≤ c := (hcodes c hmem).1
    have hlow := charToFrequency_lower c h32
    rw [sub_zero, abs_of_nonneg (by linarith)]
    simp only [FREQUENCY_TOLERANCE]
    linarith
  obtain ⟨fl, tl, hrun⟩ := analyzeRun_symbols text [] 0 tInit m (t0 + g) g
    hcodes hchain hhead hm hg (by omega)
  simp only [List.nil_append] at hrun
  have hend : analyzeStep ⟨true, text, fl, tl⟩
      ⟨END_MARKER_FREQ, m, t0 + g + (List.map charToFrequency text).length * g⟩
      = (⟨false, text, fl, tl⟩, [text]) := by
    have h := analyzeStep_end ⟨true, text, fl, tl⟩
      ⟨END_MARKER_FREQ, m, t0 + g + (List.map charToFrequency text).length * g⟩
      hm end_self_close
    simpa [hne] using h
  rw [toneFrequencies_eq, ticksFrom_cons, ticksFrom_append]
  rw [analyzeRun_snd_cons _ hstart]
  rw [analyzeRun_snd_append _ _ hrun]
  rw [ticksFrom_cons, analyzeRun_snd_cons _ hend]
  simp [analyzeRun_nil, ticksFrom_nil]

/-- Witness for the amended C2: the spec's own example "HI"
(codes [72, 73]) round-trips to exactly one frame "HI". -/
theorem round_trip_distinct_adjacent_witness :
    (analyzeRun (initialState 0) (ticksFrom (toneFrequencies [72, 73]) 200 0 50)).2
      = [[72, 73]] :=
  round_trip_distinct_adjacent [72, 73] (by decide) (by decide) (by decide)
    200 50 0 0 (by decide) (by decide) (by decide)

/-- Claim C3, counterexample: the band claimed in the spec is wrong for
this frequency map.  charToFrequency at code 32 is 6800 Hz, not 2000 Hz,
and at code 126 it is 20900 Hz, not about 16700 Hz. -/
theorem charToFrequency_at_32_not_2000 :
    charToFrequency 32 = 6800 ∧ charToFrequency 32 ≠ 2000
    ∧ charToFrequency 126 = 20900 := by
  decide

/-- Claim C3 as amended: charToFrequency obeys the formula
BASE_FREQUENCY + code · FREQUENCY_STEP, and over the printable range the
band runs from 6800 Hz at code 32 up to 20900 Hz at code 126. -/
theorem charToFrequency_band (c : ℕ) (h1 : 32 ≤ c) (h2 : c ≤ 126) :
    charToFrequency c = BASE_FREQUENCY + (c : ℚ) * FREQUENCY_STEP
    ∧ 6800 ≤ charToFrequency c ∧ charToFrequency c ≤ 20900
    ∧ charToFrequency 32 = 6800 ∧ charToFrequency 126 = 20900 :=
  ⟨rfl, charToFrequency_lower c h1, charToFrequency_upper c h2, by decide, by decide⟩

/-- Witness for the amended C3 at character code 72 ('H'). -/
theorem charToFrequency_band_witness :
    charToFrequency 72 = BASE_FREQUENCY + (72 : ℚ) * FREQUENCY_STEP
    ∧ 6800 ≤ charToFrequency 72 ∧ charToFrequency 72 ≤ 20900
    ∧ charToFrequency 32 = 6800 ∧ charToFrequency 126 = 20900 :=
  charToFrequency_band 72 (by decide) (by decide)

/-- Claim C4, counterexample: a Start-Marker tick does NOT reset the
whole state.  From a state whose last accepted frequency is 11750 Hz at
time 500, the Start-Marker tick leaves lastFrequency = 11750 and
lastAcceptedTime = 500, not their initial values 0 and the listener
start time. -/
theorem start_marker_keeps_debounce_fields :
    (analyzeStep ⟨false, [65], 11750, 500⟩ ⟨1800, 200, 600⟩).1
      = ⟨true, [], 11750, 500⟩
    ∧ (11750 : ℚ) ≠ (initialState 500).lastFrequency := by
  decide

/-- Claim C4 as amended: on every tick with magnitude above
SIGNAL_THRESHOLD whose dominant frequency is within FREQUENCY_TOLERANCE
of START_MARKER_FREQ, the receiver sets receiving to true and clears the
buffer, from any prior state; lastFrequency and lastFrequencyTime are
left unchanged, not reset to their initial values. -/
theorem start_marker_resync (s : ReceiverState) (t : Tick)
    (hm : SIGNAL_THRESHOLD < t.magnitude)
    (hf : |t.dominantFrequency - START_MARKER_FREQ| < FREQUENCY_TOLERANCE) :
    analyzeStep s t = (⟨true, [], s.lastFrequency, s.lastFrequencyTime⟩, []) :=
  analyzeStep_start s t hm hf

/-- Witness for the amended C4: a mid-frame Start Marker re-arms the
receiver and clears the buffer while keeping the debounce fields. -/
theorem start_marker_resync_witness :
    analyzeStep ⟨true, [65, 66], 11900, 500⟩ ⟨1790, 200, 600⟩
      = (⟨true, [], 11900, 500⟩, []) :=
  start_marker_resync ⟨true, [65, 66], 11900, 500⟩ ⟨1790, 200, 600⟩
    (by decide) (by decide)

/-- Claim C5: for every ordinal o in [32,126] the decoder inverts the
encoder exactly: frequencyToChar (charToFrequency o) = o, and the rounded
ordinal of the encoded frequency equals o. -/
theorem ordinal_bijection (o : ℕ) (_h1 : 32 ≤ o) (h2 : o ≤ 126) :
    frequencyToChar (charToFrequency o) = o ∧ ordinalOf (charToFrequency o) = o :=
  ⟨frequencyToChar_charToFrequency o h2, ordinalOf_charToFrequency o⟩

/-- Witness for C5 at ordinal 65 ('A'). -/
theorem ordinal_bijection_witness :
    frequencyToChar (charToFrequency 65) = 65 ∧ ordinalOf (charToFrequency 65) = 65 :=
  ordinal_bijection 65 (by decide) (by decide)

/-- Claim C6: starting in RECEIVING with a just-accepted symbol, a single
sustained in-band tone spanning 1 + rest.length consecutive ticks (all of
the same dominant frequency g) appends exactly one symbol to the buffer,
not one per tick, and emits nothing. -/
theorem debounce_single_symbol (s : ReceiverState) (g : ℚ) (m : ℕ) (t1 : ℤ)
    (rest : List Tick)
    (hs : s.isReceiving = true)
    (hm : SIGNAL_THRESHOLD < m)
    (h1800 : FREQUENCY_TOLERANCE ≤ |g - START_MARKER_FREQ|)
    (h1600 : FREQUENCY_TOLERANCE ≤ |g - END_MARKER_FREQ|)
    (hlast : FREQUENCY_TOLERANCE < |g - s.lastFrequency|)
    (ht : 40 < t1 - s.lastFrequencyTime)
    (hcode : 32 ≤ frequencyToChar g ∧ frequencyToChar g ≤ 126)
    (hrest : ∀ tk ∈ rest, tk.dominantFrequency = g) :
    analyzeRun s (⟨g, m, t1⟩ :: rest)
      = (⟨true, s.receivedText ++ [frequencyToChar g], g, t1⟩, []) := by
  have hstep := analyzeStep_accept s ⟨g, m, t1⟩ hm h1800 h1600 hs hlast ht hcode
  rw [analyzeRun_cons, hstep]
  rw [analyzeRun_sameFreq ⟨true, s.receivedText ++ [frequencyToChar g], g, t1⟩ g rest
    rfl h1800 h1600 hrest]
  simp

/-- Witness for C6: from a receiving state that just accepted 'A', three
ticks of a sustained 12800 Hz tone ('H') append exactly one 'H'. -/
theorem debounce_single_symbol_witness :
    analyzeRun ⟨true, [65], 11750, 0⟩
      [⟨12800, 200, 50⟩, ⟨12800, 220, 60⟩, ⟨12800, 190, 70⟩]
      = (⟨true, [65, 72], 12800, 50⟩, []) :=
  debounce_single_symbol ⟨true, [65], 11750, 0⟩ 12800 200 50
    [⟨12800, 220, 60⟩, ⟨12800, 190, 70⟩]
    (by decide) (by decide) (by decide) (by decide) (by decide) (by decide)
    (by decide) (by decide)

/-- Claim C7, counterexample: a RECEIVING-state tick at the end-marker
frequency has rounded ordinal -3, far outside [32,126], yet it mutates
the state (stops receiving) and emits a frame, so "ordinal outside
[32,126] never mutates state" fails for marker-band frequencies. -/
theorem marker_tick_mutates_state :
    ordinalOf 1600 = -3
    ∧ ¬(32 ≤ frequencyToChar 1600 ∧ frequencyToChar 1600 ≤ 126)
    ∧ (analyzeStep ⟨true, [65], 0, 0⟩ ⟨1600, 200, 100⟩).1 ≠ ⟨true, [65], 0, 0⟩
    ∧ (analyzeStep ⟨true, [65], 0, 0⟩ ⟨1600, 200, 100⟩).2 = [[65]] := by
  decide

/-- Claim C7 as amended: a tick with magnitude at most SIGNAL_THRESHOLD
leaves every field of the receiver state unchanged and emits nothing;
and a tick in RECEIVING state whose decoded code lies outside [32,126]
leaves the state unchanged and emits nothing PROVIDED its frequency is at
least FREQUENCY_TOLERANCE away from both marker frequencies (a marker
tick is handled by the marker branches and does mutate state). -/
theorem noise_rejection_nonmarker (s : ReceiverState) (t : Tick) :
    (t.magnitude ≤ SIGNAL_THRESHOLD → analyzeStep s t = (s, []))
    ∧ (FREQUENCY_TOLERANCE ≤ |t.dominantFrequency - START_MARKER_FREQ| →
       FREQUENCY_TOLERANCE ≤ |t.dominantFrequency - END_MARKER_FREQ| →
       ¬(32 ≤ frequencyToChar t.dominantFrequency ∧
         frequencyToChar t.dominantFrequency ≤ 126) →
       analyzeStep s t = (s, [])) :=
  ⟨fun hm => analyzeStep_silence s t hm,
   fun h1800 h1600 hcode => analyzeStep_badCode s t h1800 h1600 hcode⟩

/-- Witness for the amended C7: a quiet start-marker tick is ignored, and
a loud 30000 Hz tick (decoded code 187, outside the printable range) in
RECEIVING state is dropped without mutation. -/
theorem noise_rejection_nonmarker_witness :
    analyzeStep (initialState 5) ⟨1800, 100, 60⟩ = (initialState 5, [])
    ∧ analyzeStep ⟨true, [65], 0, 0⟩ ⟨30000, 200, 100⟩ = (⟨true, [65], 0, 0⟩, []) :=
  ⟨(noise_rejection_nonmarker (initialState 5) ⟨1800, 100, 60⟩).1 (by decide),
   (noise_rejection_nonmarker ⟨true, [65], 0, 0⟩ ⟨30000, 200, 100⟩).2
     (by decide) (by decide) (by decide)⟩

/-- Claim C8: from every receiver state, a Start-Marker tick followed
immediately by an End-Marker tick (no accepted symbol in between) emits
no frame: the Start Marker clears the buffer, so the End Marker finds it
empty and stays silent. -/
theorem empty_frame_suppression (s : ReceiverState) (t1 t2 : Tick)
    (hm1 : SIGNAL_THRESHOLD < t1.magnitude)
    (hf1 : |t1.dominantFrequency - START_MARKER_FREQ| < FREQUENCY_TOLERANCE)
    (hm2 : SIGNAL_THRESHOLD < t2.magnitude)
    (hf2 : |t2.dominantFrequency - END_MARKER_FREQ| < FREQUENCY_TOLERANCE) :
    (analyzeRun s [t1, t2]).2 = [] := by
  rw [analyzeRun_cons, analyzeStep_start s t1 hm1 hf1]
  simp only [analyzeRun_cons, analyzeRun_nil,
    analyzeStep_end ⟨true, [], s.lastFrequency, s.lastFrequencyTime⟩ t2 hm2 hf2]
  simp

/-- Witness for C8: even mid-frame with a non-empty buffer, Start then
End emits nothing (the Start Marker discards the partial frame). -/
theorem empty_frame_suppression_witness :
    (analyzeRun ⟨true, [72, 73], 12950, 400⟩
      [⟨1810, 200, 450⟩, ⟨1590, 200, 500⟩]).2 = [] :=
  empty_frame_suppression ⟨true, [72, 73], 12950, 400⟩ ⟨1810, 200, 450⟩
    ⟨1590, 200, 500⟩ (by decide) (by decide) (by decide) (by decide)

/-- Claim C10: encodeText on the empty string still schedules a complete
frame of exactly two tones, the 1800 Hz Start Marker then the 1600 Hz End
Marker, each of duration CHAR_DURATION, and feeding the two corresponding
readings to the receiver emits no frame. -/
theorem empty_text_frame (m : ℕ) (t g tInit : ℤ) (hm : SIGNAL_THRESHOLD < m) :
    toneSequence []
      = [⟨START_MARKER_FREQ, CHAR_DURATION⟩, ⟨END_MARKER_FREQ, CHAR_DURATION⟩]
    ∧ (analyzeRun (initialState tInit) (ticksFrom (toneFrequencies []) m t g)).2
      = [] := by
  refine ⟨rfl, ?_⟩
  have h0 : initialState tInit = (⟨false, [], 0, tInit⟩ : ReceiverState) := rfl
  have hstart : analyzeStep (⟨false, [], 0, tInit⟩ : ReceiverState)
      ⟨START_MARKER_FREQ, m, t⟩ = (⟨true, [], 0, tInit⟩, []) := by
    rw [analyzeStep_start ⟨false, [], 0, tInit⟩ ⟨START_MARKER_FREQ, m, t⟩ hm start_self_close]
  have hend : analyzeStep (⟨true, [], 0, tInit⟩ : ReceiverState)
      ⟨END_MARKER_FREQ, m, t + g⟩ = (⟨false, [], 0, tInit⟩, []) := by
    rw [analyzeStep_end ⟨true, [], 0, tInit⟩ ⟨END_MARKER_FREQ, m, t + g⟩ hm end_self_close]
    simp
  have hfr : toneFrequencies [] = [START_MARKER_FREQ, END_MARKER_FREQ] := rfl
  rw [h0, hfr, ticksFrom_cons, ticksFrom_cons, ticksFrom_nil, analyzeRun_cons]
  simp only [hstart, analyzeRun_cons, analyzeRun_nil, hend, List.nil_append,
    List.append_nil]

/-- Witness for C10 at concrete parameters. -/
theorem empty_text_frame_witness :
    toneSequence []
      = [⟨START_MARKER_FREQ, CHAR_DURATION⟩, ⟨END_MARKER_FREQ, CHAR_DURATION⟩]
    ∧ (analyzeRun (initialState 0) (ticksFrom (toneFrequencies []) 200 10 50)).2
      = [] :=
  empty_text_frame 200 10 50 0 (by decide)

/-- Claim C9: (a) for every frequency f ≥ 0 the rounded ordinal
round((f - BASE_FREQUENCY) / FREQUENCY_STEP) is at least -13; (b) every
negative ordinal wraps modulo 2^16 under String.fromCharCode to a
character code at least 65523, far above 126, so it is still rejected by
the [32,126] range check; (c) on every dominant frequency the analyzer
can produce (bin i < 2048 of the 4096-point transform at 48000 Hz),
symbol acceptance is exactly equivalent to the rounded ordinal lying in
[32,126]; (d)(e) in particular neither marker frequency is accepted as a
symbol via wrap-around. -/
theorem wraparound_rejection :
    (∀ f : ℚ, 0 ≤ f → -13 ≤ ordinalOf f)
    ∧ (∀ f : ℚ, 0 ≤ f → ordinalOf f < 0 → 65523 ≤ frequencyToChar f)
    ∧ (∀ i : ℕ, i < 2048 →
        ((32 ≤ frequencyToChar (binFrequency i) ∧ frequencyToChar (binFrequency i) ≤ 126)
          ↔ (32 ≤ ordinalOf (binFrequency i) ∧ ordinalOf (binFrequency i) ≤ 126)))
    ∧ ¬(32 ≤ frequencyToChar END_MARKER_FREQ ∧ frequencyToChar END_MARKER_FREQ ≤ 126)
    ∧ ¬(32 ≤ frequencyToChar START_MARKER_FREQ ∧ frequencyToChar START_MARKER_FREQ ≤ 126) := by
  have ha : ∀ f : ℚ, 0 ≤ f → -13 ≤ ordinalOf f := by
    intro f hf
    unfold ordinalOf jsRound
    rw [Int.le_floor]
    have hsplit : (f - BASE_FREQUENCY) / FREQUENCY_STEP + 1 / 2
        = f * (1 / 150) - 77 / 6 := by
      simp only [BASE_FREQUENCY, FREQUENCY_STEP]
      ring
    rw [hsplit]
    have hpos : 0 ≤ f * (1 / 150) := by positivity
    push_cast
    linarith
  have hb : ∀ f : ℚ, 0 ≤ f → ordinalOf f < 0 → 65523 ≤ frequencyToChar f := by
    intro f hf hneg
    have hlo := ha f hf
    unfold frequencyToChar
    omega
  refine ⟨ha, hb, ?_, by decide, by decide⟩
  intro i hi
  have hf0 : (0 : ℚ) ≤ binFrequency i := by
    unfold binFrequency
    positivity
  have hlo := ha (binFrequency i) hf0
  have hup : ordinalOf (binFrequency i) ≤ 147 := by
    unfold ordinalOf jsRound
    have hlt : ⌊(binFrequency i - BASE_FREQUENCY) / FREQUENCY_STEP + 1 / 2⌋ < 148 := by
      rw [Int.floor_lt]
      have hcast : (i : ℚ) ≤ 2047 := by
        exact_mod_cast Nat.lt_succ_iff.mp hi
      have hsplit : (binFrequency i - BASE_FREQUENCY) / FREQUENCY_STEP + 1 / 2
          = (i : ℚ) * (5 / 64) - 77 / 6 := by
        unfold binFrequency
        simp only [BASE_FREQUENCY, FREQUENCY_STEP, SAMPLE_RATE, FFT_SIZE]
        push_cast
        ring
      rw [hsplit]
      push_cast
      linarith
    omega
  unfold frequencyToChar
  omega

/-- Witness for C9 at concrete inputs: the lower bound at 0 Hz, the
wrap bound at the end-marker frequency, and the acceptance equivalence
at bin 1092 (12796.875 Hz, decoded as code 72). -/
theorem wraparound_rejection_witness :
    (-13 ≤ ordinalOf 0)
    ∧ (65523 ≤ frequencyToChar 1600)
    ∧ ((32 ≤ frequencyToChar (binFrequency 1092) ∧ frequencyToChar (binFrequency 1092) ≤ 126)
        ↔ (32 ≤ ordinalOf (binFrequency 1092) ∧ ordinalOf (binFrequency 1092) ≤ 126)) :=
  ⟨wraparound_rejection.1 0 (by norm_num),
   wraparound_rejection.2.1 1600 (by norm_num) (by decide),
   wraparound_rejection.2.2.1 1092 (by norm_num)⟩

end AudioCodec
